import Mathlib

/-!
# Poker leaderboard server — shallow embedding

This file embeds the core logic of the poker leaderboard server
(`src/server.js`, `src/api/game.js`, `src/lib/mongodb.js`) in Lean 4 and
proves the specification's claims about it.

Modelling conventions:
* JS numbers carrying money (`amount`, `totalWinnings`, `biggestWin`,
  `totalWon`, `totalLost`) are modelled as `ℤ` (the workflow only adds,
  negates, compares and takes `max` of them); the derived `winRate` and
  `avgWin`, where the code divides, are modelled as exact rationals `ℚ`.
* Counters (`gamesPlayed`, `wins`, `losses`) are `Nat`.
* Timestamps (`new Date()`) are `Nat` values threaded in as a `now` argument.
* A Mongo collection is a Lean list; `findOne` is `List.find?` (first match),
  `insertOne` appends, `updateOne` by `_id` replaces the first player whose
  `name` matches (player identity is the unique `name`, the key the handler
  looks players up by; the document found/created by the handler is always
  the first with that name, so update-by-`_id` is replace-first-by-name).
* JS truthiness in `if (!playerName || !result || !amount || !gameType)`:
  a string is falsy exactly when empty, a number exactly when zero.
* `Array.prototype.sort` is a stable comparator sort (ES2019); the comparator
  `(a, b) => b.totalWinnings - a.totalWinnings` orders by descending
  `totalWinnings`; we embed it as `List.insertionSort`, a stable sort.
* Exceptions are modelled with `Except`; the injected failure point of the
  leaderboard materializer (`LBFail`) models which awaited store operation
  inside `updateLeaderboard`'s `try` block throws, if any.
-/

namespace Poker

/-- A document of the `Players` collection (see the fresh-player literal in
`src/server.js` / `src/api/game.js`). -/
structure Player where
  name : String
  totalWinnings : ℤ
  gamesPlayed : Nat
  wins : Nat
  losses : Nat
  biggestWin : ℤ
  totalWon : ℤ
  totalLost : ℤ
  createdAt : Nat
  updatedAt : Nat
  deriving DecidableEq, Repr

/-- A document of the `Sessions` collection (the session literal in the
handler; `playerId` is represented by the owning player's `name`, the unique
natural key). -/
structure Session where
  playerName : String
  playerId : String
  result : String
  amount : ℤ
  gameType : String
  date : Nat
  createdAt : Nat
  deriving DecidableEq, Repr

/-- A document of the `Leaderboard` collection: the `{...player, rank,
winRate, avgWin, updatedAt}` spread.  The spread's `updatedAt` overrides the
player's, so the authoritative recomputation stamp is the `updatedAt` field
here, not `player.updatedAt`. -/
structure LBEntry where
  player : Player
  rank : Nat
  winRate : ℚ
  avgWin : ℚ
  updatedAt : Nat
  deriving DecidableEq, Repr

/-- The three collections the handlers touch. -/
structure DBState where
  players : List Player
  sessions : List Session
  leaderboard : List LBEntry
  deriving DecidableEq, Repr

def dbEmpty : DBState := ⟨[], [], []⟩

/-- The JSON body of `POST /api/game`. -/
structure GameRequest where
  playerName : String
  result : String
  amount : ℤ
  gameType : String
  deriving DecidableEq, Repr

/-- Response bodies the embedded handlers produce. -/
inductive RespBody
  | allFieldsRequired
  | gameRecorded
  | failedToRecord
  | sessionsList (l : List Session)
  deriving DecidableEq, Repr

structure Response where
  status : Nat
  body : RespBody
  deriving DecidableEq, Repr

/-! ## Leaderboard materializer (`updateLeaderboard`) -/

/-- `player.gamesPlayed > 0 ? (player.wins / player.gamesPlayed) * 100 : 0` -/
def winRate (p : Player) : ℚ :=
  if p.gamesPlayed > 0 then ((p.wins : ℚ) / (p.gamesPlayed : ℚ)) * 100 else 0

/-- `player.wins > 0 ? player.totalWon / player.wins : 0` -/
def avgWin (p : Player) : ℚ :=
  if p.wins > 0 then (p.totalWon : ℚ) / (p.wins : ℚ) else 0

/-- The comparator `(a, b) => b.totalWinnings - a.totalWinnings`: `a` sorts
no later than `b` iff `b.totalWinnings - a.totalWinnings ≤ 0`. -/
def winningsGE (a b : Player) : Prop := b.totalWinnings ≤ a.totalWinnings

instance : DecidableRel winningsGE := fun a b =>
  inferInstanceAs (Decidable (b.totalWinnings ≤ a.totalWinnings))

instance : IsTotal Player winningsGE :=
  ⟨fun a b => le_total b.totalWinnings a.totalWinnings⟩

instance : IsTrans Player winningsGE :=
  ⟨fun _ _ _ h1 h2 => le_trans h2 h1⟩

/-- `players.sort((a, b) => b.totalWinnings - a.totalWinnings)`: a stable
sort by descending `totalWinnings`. -/
def sortPlayers (ps : List Player) : List Player :=
  ps.insertionSort winningsGE

/-- `players.map((player, index) => ({...player, rank: index + 1, winRate,
avgWin, updatedAt: new Date()}))`, with the running index made explicit. -/
def rankEntries (now : Nat) : Nat → List Player → List LBEntry
  | _, [] => []
  | i, p :: ps =>
    ⟨p, i + 1, winRate p, avgWin p, now⟩ :: rankEntries now (i + 1) ps

/-- The `leaderboardData` value computed inside `updateLeaderboard`. -/
def computeLeaderboard (now : Nat) (ps : List Player) : List LBEntry :=
  rankEntries now 0 (sortPlayers ps)

/-- `insertMany` on the `Leaderboard` collection; Mongo's `insertMany`
rejects an empty batch, which is why the code guards with
`if (leaderboardData.length > 0)`. -/
def insertManyLeaderboard (l : List LBEntry) (s : DBState) :
    Except String DBState :=
  if l.isEmpty then .error "insertMany: empty document batch"
  else .ok { s with leaderboard := s.leaderboard ++ l }

/-- The body of `updateLeaderboard`'s `try` block: load all players, sort,
rank, then `deleteMany({})` and (when non-empty) `insertMany`. -/
def updateLeaderboardBody (now : Nat) (s : DBState) : Except String DBState := do
  let players := s.players
  let leaderboardData := computeLeaderboard now players
  let s1 : DBState := { s with leaderboard := [] }
  if leaderboardData.length > 0 then insertManyLeaderboard leaderboardData s1
  else pure s1

/-- Which awaited operation inside `updateLeaderboard`'s `try` block throws
(if any): the `find` over `Players`, the `deleteMany`, or the `insertMany`. -/
inductive LBFail
  | noFail
  | atFind
  | atDelete
  | atInsert
  deriving DecidableEq, Repr

/-- `updateLeaderboard` including its `try/catch`: whatever happens inside,
the error is only logged and the function returns normally; the state
reflects the operations that committed before the throw. -/
def updateLeaderboard (f : LBFail) (now : Nat) (s : DBState) : DBState :=
  match f with
  | .atFind => s
  | .atDelete => s
  | .atInsert => { s with leaderboard := [] }
  | .noFail =>
    match updateLeaderboardBody now s with
    | .ok s' => s'
    | .error _ => { s with leaderboard := [] }

/-! ## Game recording workflow (`POST /api/game`) -/

/-- `!playerName || !result || !amount || !gameType` (JS truthiness). -/
def validReq (req : GameRequest) : Prop :=
  req.playerName ≠ "" ∧ req.result ≠ "" ∧ req.amount ≠ 0 ∧ req.gameType ≠ ""

instance : DecidablePred validReq := fun _ =>
  inferInstanceAs (Decidable (_ ∧ _ ∧ _ ∧ _))

/-- The fresh-player document inserted when `findOne` returns nothing. -/
def freshPlayer (name : String) (now : Nat) : Player :=
  ⟨name, 0, 0, 0, 0, 0, 0, 0, now, now⟩

/-- The `$set` update built by the handler, applied to the found document:
always bump `totalWinnings`, `gamesPlayed`, `updatedAt`; the win branch bumps
`wins`, `totalWon`, `biggestWin`, the other branch `losses`, `totalLost`. -/
def foldGame (req : GameRequest) (now : Nat) (p : Player) : Player :=
  let gameAmount := if req.result = "win" then req.amount else -req.amount
  let base := { p with
    totalWinnings := p.totalWinnings + gameAmount
    gamesPlayed := p.gamesPlayed + 1
    updatedAt := now }
  if req.result = "win" then
    { base with
      wins := p.wins + 1
      totalWon := p.totalWon + req.amount
      biggestWin := max p.biggestWin req.amount }
  else
    { base with
      losses := p.losses + 1
      totalLost := p.totalLost + req.amount }

/-- `updateOne({_id: player._id}, {$set: updateData})`: replace the first
player with the given name (the one `findOne` returned). -/
def replaceFirst (n : String) (p' : Player) : List Player → List Player
  | [] => []
  | q :: t => if q.name = n then p' :: t else q :: replaceFirst n p' t

/-- The session document appended by the handler. -/
def mkSession (req : GameRequest) (now : Nat) : Session :=
  ⟨req.playerName, req.playerName,
   req.result,
   if req.result = "win" then req.amount else -req.amount,
   req.gameType, now, now⟩

/-- The `POST /api/game` handler: validate, find-or-create the player, fold
the result into its statistics, persist, append the session, then call the
leaderboard materializer (whose failure `f` is caught inside it), and
respond 200. -/
def postGame (f : LBFail) (now : Nat) (req : GameRequest) (s : DBState) :
    Response × DBState :=
  if validReq req then
    let found := s.players.find? (fun p => p.name = req.playerName)
    let players1 :=
      match found with
      | some _ => s.players
      | none => s.players ++ [freshPlayer req.playerName now]
    let player := found.getD (freshPlayer req.playerName now)
    let players2 := replaceFirst req.playerName (foldGame req now player) players1
    let s3 : DBState := { s with
      players := players2
      sessions := s.sessions ++ [mkSession req now] }
    let s4 := updateLeaderboard f now s3
    (⟨200, .gameRecorded⟩, s4)
  else
    (⟨400, .allFieldsRequired⟩, s)

/-- Replaying a sequence of submissions; each carries the materializer
failure mode and timestamp of its own request. -/
def runGames (items : List (LBFail × Nat × GameRequest)) (s : DBState) : DBState :=
  items.foldl (fun st it => (postGame it.1 it.2.1 it.2.2 st).2) s

/-! ## Query facade -/

/-- The Mongo sort key `{createdAt: -1}`. -/
def createdGE (a b : Session) : Prop := b.createdAt ≤ a.createdAt

instance : DecidableRel createdGE := fun a b =>
  inferInstanceAs (Decidable (b.createdAt ≤ a.createdAt))

instance : IsTotal Session createdGE :=
  ⟨fun a b => Nat.le_total b.createdAt a.createdAt⟩

instance : IsTrans Session createdGE :=
  ⟨fun _ _ _ h1 h2 => le_trans h2 h1⟩

/-- `db.collection("Sessions").find({}).sort({createdAt: -1}).limit(50)`. -/
def recentSessions (s : DBState) : List Session :=
  ((s.sessions).insertionSort createdGE).take 50

/-- The `GET /api/sessions` handler (success path). -/
def getSessions (s : DBState) : Response :=
  ⟨200, .sessionsList (recentSessions s)⟩

/-! ## Derived notions used to state the claims -/

/-- The `biggestWin` field of the player record a lookup by `name` returns
(`0` when no such player exists, matching the fresh record's zero). -/
def bw (s : DBState) (n : String) : ℤ :=
  ((s.players.find? (fun p => p.name = n)).map Player.biggestWin).getD 0

/-- The amounts of the accepted win-result submissions for player `n` in a
replayed sequence (rejected submissions do not count: they perform no
mutation). -/
def winAmounts (n : String) (items : List (LBFail × Nat × GameRequest)) :
    List ℤ :=
  (items.filter (fun it =>
    decide (validReq it.2.2 ∧ it.2.2.playerName = n ∧
      it.2.2.result = "win"))).map (fun it => it.2.2.amount)

/-- Stated from the claim's words, for comparison with the code: "the
maximum amount over all win-result submissions for that player so far
(0 when there have been none)". -/
def specBiggestWin (n : String) (items : List (LBFail × Nat × GameRequest)) :
    ℤ :=
  match winAmounts n items with
  | [] => 0
  | a :: t => t.foldl max a

/-- The two per-player statistics invariants of the spec. -/
def statsInv (p : Player) : Prop :=
  p.wins + p.losses = p.gamesPlayed ∧
    p.totalWinnings = p.totalWon - p.totalLost

/-! ## Helper lemmas -/

theorem updateLeaderboardBody_eq (now : Nat) (s : DBState) :
    updateLeaderboardBody now s =
      Except.ok { s with leaderboard := computeLeaderboard now s.players } := by
  simp only [updateLeaderboardBody, insertManyLeaderboard, bind, Except.bind,
    pure, Except.pure]
  by_cases h : computeLeaderboard now s.players = []
  · simp [h]
  · simp [h, List.isEmpty_iff, List.length_pos.mpr h]

theorem players_updateLeaderboard (f : LBFail) (now : Nat) (s : DBState) :
    (updateLeaderboard f now s).players = s.players := by
  cases f <;> simp [updateLeaderboard, updateLeaderboardBody_eq]

theorem sessions_updateLeaderboard (f : LBFail) (now : Nat) (s : DBState) :
    (updateLeaderboard f now s).sessions = s.sessions := by
  cases f <;> simp [updateLeaderboard, updateLeaderboardBody_eq]

theorem foldGame_name (req : GameRequest) (now : Nat) (p : Player) :
    (foldGame req now p).name = p.name := by
  simp only [foldGame]
  split <;> rfl

theorem map_rank_rankEntries (now : Nat) (i : Nat) (l : List Player) :
    (rankEntries now i l).map LBEntry.rank =
      (List.range l.length).map (· + (i + 1)) := by
  induction l generalizing i with
  | nil => rfl
  | cons p ps ih =>
    simp only [rankEntries, List.map_cons, ih, List.length_cons,
      List.range_succ_eq_map, List.map_map, Nat.zero_add]
    congr 1
    exact List.map_congr_left fun x _ => by
      simp only [Function.comp_apply, Nat.succ_eq_add_one]
      omega

theorem map_player_rankEntries (now : Nat) (i : Nat) (l : List Player) :
    (rankEntries now i l).map LBEntry.player = l := by
  induction l generalizing i with
  | nil => rfl
  | cons p ps ih => simp [rankEntries, ih]

theorem mem_rankEntries (now : Nat) (i : Nat) (l : List Player) (e : LBEntry)
    (he : e ∈ rankEntries now i l) :
    e.player ∈ l ∧ e.winRate = winRate e.player ∧
      e.avgWin = avgWin e.player ∧ e.updatedAt = now := by
  induction l generalizing i with
  | nil => cases he
  | cons p ps ih =>
    rcases List.mem_cons.mp he with he' | he'
    · subst he'
      exact ⟨List.mem_cons_self _ _, rfl, rfl, rfl⟩
    · obtain ⟨h1, h2⟩ := ih (i + 1) he'
      exact ⟨List.mem_cons_of_mem _ h1, h2⟩

theorem rankEntries_map_proj (t t' : Nat) (i : Nat) (l : List Player) :
    (rankEntries t i l).map (fun e => (e.player, e.rank, e.winRate, e.avgWin)) =
      (rankEntries t' i l).map
        (fun e => (e.player, e.rank, e.winRate, e.avgWin)) := by
  induction l generalizing i with
  | nil => rfl
  | cons p ps ih => simp [rankEntries, ih]

theorem sortPlayers_perm (ps : List Player) : (sortPlayers ps).Perm ps :=
  List.perm_insertionSort winningsGE ps

theorem sortPlayers_sorted (ps : List Player) :
    (sortPlayers ps).Sorted winningsGE :=
  List.sorted_insertionSort winningsGE ps

theorem filter_orderedInsert_winnings (x : Player) (l : List Player) (v : ℤ) :
    (l.orderedInsert winningsGE x).filter (fun p => p.totalWinnings = v) =
      ((x :: l).filter (fun p => p.totalWinnings = v)) := by
  induction l with
  | nil => rfl
  | cons b t ih =>
    by_cases hxb : winningsGE x b
    · rw [List.orderedInsert_of_le _ _ hxb]
    · have hbx : ¬ b.totalWinnings = x.totalWinnings := fun h =>
        hxb (le_of_eq h)
      simp only [List.orderedInsert, if_neg hxb, List.filter_cons] at *
      by_cases hx : x.totalWinnings = v
      · have hb : ¬ b.totalWinnings = v := fun h => hbx (h.trans hx.symm)
        simp_all
      · simp_all

theorem sortPlayers_filter_winnings (ps : List Player) (v : ℤ) :
    (sortPlayers ps).filter (fun p => p.totalWinnings = v) =
      ps.filter (fun p => p.totalWinnings = v) := by
  induction ps with
  | nil => rfl
  | cons x t ih =>
    show ((t.insertionSort winningsGE).orderedInsert winningsGE x).filter _ = _
    rw [filter_orderedInsert_winnings]
    simp only [List.filter_cons]
    rw [show (t.insertionSort winningsGE).filter
          (fun p => decide (p.totalWinnings = v)) =
        t.filter (fun p => decide (p.totalWinnings = v)) from ih]

theorem mem_replaceFirst (l : List Player) (n : String) (p' q : Player)
    (h : q ∈ replaceFirst n p' l) : q ∈ l ∨ q = p' := by
  induction l with
  | nil => cases h
  | cons x t ih =>
    by_cases hx : x.name = n
    · simp only [replaceFirst, if_pos hx] at h
      rcases List.mem_cons.mp h with h' | h'
      · exact Or.inr h'
      · exact Or.inl (List.mem_cons_of_mem _ h')
    · simp only [replaceFirst, if_neg hx] at h
      rcases List.mem_cons.mp h with h' | h'
      · exact Or.inl (h' ▸ List.mem_cons_self _ _)
      · rcases ih h' with h'' | h''
        · exact Or.inl (List.mem_cons_of_mem _ h'')
        · exact Or.inr h''

theorem find?_replaceFirst_self (l : List Player) (n : String) (p' : Player)
    (hp' : p'.name = n)
    (h : (l.find? (fun p => p.name = n)).isSome) :
    (replaceFirst n p' l).find? (fun p => p.name = n) = some p' := by
  induction l with
  | nil => simp at h
  | cons x t ih =>
    by_cases hx : x.name = n
    · simp [replaceFirst, hx, hp']
    · simp only [replaceFirst, if_neg hx]
      have hx' : decide (x.name = n) = false := by simpa using hx
      simp only [List.find?_cons, hx'] at h ⊢
      exact ih h

theorem find?_replaceFirst_other (l : List Player) (n m : String)
    (p' : Player) (hp' : p'.name = n) (hnm : m ≠ n) :
    (replaceFirst n p' l).find? (fun p => p.name = m) =
      l.find? (fun p => p.name = m) := by
  induction l with
  | nil => rfl
  | cons x t ih =>
    by_cases hx : x.name = n
    · have hxm : decide (x.name = m) = false := by
        simp only [decide_eq_false_iff_not]
        exact fun h => hnm (h ▸ hx)
      have hpm : decide (p'.name = m) = false := by
        simp only [decide_eq_false_iff_not]
        exact fun h => hnm (h ▸ hp')
      simp only [replaceFirst, if_pos hx, List.find?_cons, hxm, hpm]
    · simp only [replaceFirst, if_neg hx]
      by_cases hxm : x.name = m
      · simp [List.find?_cons, hxm]
      · have hxm' : decide (x.name = m) = false := by simpa using hxm
        simp only [List.find?_cons, hxm', ih]

theorem replaceFirst_append_singleton (l : List Player) (n : String)
    (x p' : Player) (h : ∀ q ∈ l, ¬ q.name = n) (hx : x.name = n) :
    replaceFirst n p' (l ++ [x]) = l ++ [p'] := by
  induction l with
  | nil => simp [replaceFirst, hx]
  | cons y t ih =>
    have hy : ¬ y.name = n := h y (List.mem_cons_self _ _)
    simp only [List.cons_append, replaceFirst, if_neg hy, List.append_eq]
    rw [ih fun q hq => h q (List.mem_cons_of_mem _ hq)]

/-- `postGame` on a valid submission whose player already exists. -/
theorem postGame_valid_found (f : LBFail) (now : Nat) (req : GameRequest)
    (s : DBState) (p : Player) (hv : validReq req)
    (hf : s.players.find? (fun q => q.name = req.playerName) = some p) :
    postGame f now req s =
      (⟨200, .gameRecorded⟩,
        updateLeaderboard f now
          { s with
            players :=
              replaceFirst req.playerName (foldGame req now p) s.players
            sessions := s.sessions ++ [mkSession req now] }) := by
  simp [postGame, hv, hf]

/-- `postGame` on a valid submission whose player does not exist yet: the
fresh zeroed record is inserted, then updated. -/
theorem postGame_valid_new (f : LBFail) (now : Nat) (req : GameRequest)
    (s : DBState) (hv : validReq req)
    (hf : s.players.find? (fun q => q.name = req.playerName) = none) :
    postGame f now req s =
      (⟨200, .gameRecorded⟩,
        updateLeaderboard f now
          { s with
            players :=
              s.players ++ [foldGame req now (freshPlayer req.playerName now)]
            sessions := s.sessions ++ [mkSession req now] }) := by
  have hnone : ∀ q ∈ s.players, ¬ q.name = req.playerName := by
    intro q hq
    have := List.find?_eq_none.mp hf q hq
    simpa using this
  simp only [postGame, if_pos hv, hf, Option.getD_none]
  rw [replaceFirst_append_singleton _ _ _ _ hnone rfl]

/-- An invalid submission is rejected with no state change. -/
theorem postGame_invalid (f : LBFail) (now : Nat) (req : GameRequest)
    (s : DBState) (hv : ¬ validReq req) :
    postGame f now req s = (⟨400, .allFieldsRequired⟩, s) := by
  simp [postGame, hv]

theorem statsInv_fresh (n : String) (now : Nat) :
    statsInv (freshPlayer n now) := by
  constructor
  · rfl
  · show (0 : ℤ) = 0 - 0
    decide

theorem statsInv_foldGame (req : GameRequest) (now : Nat) (p : Player)
    (h : statsInv p) : statsInv (foldGame req now p) := by
  obtain ⟨h1, h2⟩ := h
  simp only [foldGame, statsInv]
  by_cases hw : req.result = "win" <;> simp only [if_pos, if_neg, hw,
    if_true, if_false, ite_true, ite_false] <;> constructor <;> omega

theorem statsInv_postGame (f : LBFail) (now : Nat) (req : GameRequest)
    (s : DBState) (h : ∀ p ∈ s.players, statsInv p) :
    ∀ p ∈ (postGame f now req s).2.players, statsInv p := by
  by_cases hv : validReq req
  · intro q hq
    rcases hfind : s.players.find? (fun x => x.name = req.playerName) with
      _ | p
    · rw [postGame_valid_new f now req s hv hfind] at hq
      simp only [players_updateLeaderboard] at hq
      rcases List.mem_append.mp hq with hq' | hq'
      · exact h q hq'
      · rcases List.mem_singleton.mp hq' with rfl
        exact statsInv_foldGame _ _ _ (statsInv_fresh _ _)
    · rw [postGame_valid_found f now req s p hv hfind] at hq
      simp only [players_updateLeaderboard] at hq
      rcases mem_replaceFirst _ _ _ _ hq with hq' | rfl
      · exact h q hq'
      · exact statsInv_foldGame _ _ _
          (h p (List.mem_of_find?_eq_some hfind))
  · rw [postGame_invalid f now req s hv]
    exact h

theorem statsInv_runGames (items : List (LBFail × Nat × GameRequest))
    (s : DBState) (h : ∀ p ∈ s.players, statsInv p) :
    ∀ p ∈ (runGames items s).players, statsInv p := by
  induction items generalizing s with
  | nil => exact h
  | cons it t ih =>
    exact ih _ (statsInv_postGame it.1 it.2.1 it.2.2 s h)

/-- How one submission changes the looked-up `biggestWin`. -/
theorem bw_postGame (f : LBFail) (now : Nat) (req : GameRequest)
    (s : DBState) (n : String) :
    bw (postGame f now req s).2 n =
      if validReq req ∧ req.playerName = n ∧ req.result = "win" then
        max (bw s n) req.amount
      else bw s n := by
  by_cases hv : validReq req
  case neg =>
    rw [postGame_invalid f now req s hv]
    simp [hv]
  case pos =>
    rcases hfind : s.players.find? (fun x => x.name = req.playerName) with
      _ | p
    case none =>
      rw [postGame_valid_new f now req s hv hfind]
      by_cases hn : req.playerName = n
      case pos =>
        subst hn
        have hs : bw s req.playerName = 0 := by simp [bw, hfind]
        have hq : decide ((foldGame req now
            (freshPlayer req.playerName now)).name = req.playerName) =
            true := by simp [foldGame_name, freshPlayer]
        simp only [bw, players_updateLeaderboard, List.find?_append, hfind,
          Option.none_or, List.find?_cons, hq, List.find?_nil]
        by_cases hw : req.result = "win"
        · simp [foldGame, freshPlayer, hw, hv, hs]
        · simp [foldGame, freshPlayer, hw, hv, hs]
      case neg =>
        have hq : decide ((foldGame req now
            (freshPlayer req.playerName now)).name = n) = false := by
          simp only [decide_eq_false_iff_not, foldGame_name, freshPlayer]
          exact hn
        have hcond : ¬ (validReq req ∧ req.playerName = n ∧
            req.result = "win") := fun hc => hn hc.2.1
        simp only [bw, players_updateLeaderboard, List.find?_append,
          List.find?_cons, hq, List.find?_nil, Option.or_none,
          if_neg hcond]
    case some =>
      rw [postGame_valid_found f now req s p hv hfind]
      have hpname : p.name = req.playerName := by
        have := List.find?_some hfind
        simpa using this
      have hfold : (foldGame req now p).name = req.playerName := by
        rw [foldGame_name]
        exact hpname
      by_cases hn : req.playerName = n
      case pos =>
        subst hn
        have hsome :
            (s.players.find? (fun q => q.name = req.playerName)).isSome := by
          simp [hfind]
        have hs : bw s req.playerName = p.biggestWin := by simp [bw, hfind]
        rw [bw, players_updateLeaderboard,
          find?_replaceFirst_self _ _ _ hfold hsome]
        by_cases hw : req.result = "win"
        · simp [foldGame, hw, hv, hs]
        · simp [foldGame, hw, hv, hs]
      case neg =>
        have hcond : ¬ (validReq req ∧ req.playerName = n ∧
            req.result = "win") := fun hc => hn hc.2.1
        rw [bw, players_updateLeaderboard,
          find?_replaceFirst_other _ _ _ _ hfold (fun h => hn h.symm),
          if_neg hcond, bw]

/-- The looked-up `biggestWin` after a replay folds `max` over the accepted
win amounts. -/
theorem bw_runGames (items : List (LBFail × Nat × GameRequest))
    (s : DBState) (n : String) :
    bw (runGames items s) n = (winAmounts n items).foldl max (bw s n) := by
  induction items generalizing s with
  | nil => rfl
  | cons it t ih =>
    show bw (runGames t (postGame it.1 it.2.1 it.2.2 s).2) n = _
    rw [ih, bw_postGame it.1 it.2.1 it.2.2 s n]
    by_cases hc : validReq it.2.2 ∧ it.2.2.playerName = n ∧
      it.2.2.result = "win"
    · simp [winAmounts, List.filter_cons, hc]
    · simp [winAmounts, List.filter_cons, hc]

theorem leaderboard_updateLeaderboard_noFail (now : Nat) (s : DBState) :
    (updateLeaderboard .noFail now s).leaderboard =
      computeLeaderboard now s.players := by
  show (match updateLeaderboardBody now s with
        | .ok s' => s'
        | .error _ => { s with leaderboard := [] }).leaderboard = _
  rw [updateLeaderboardBody_eq]

/-! ## Claims -/

/-- C1, counterexample: the claim requires `result ∈ {win, loss}` for
acceptance, but a submission with `result = "draw"` (all four fields truthy)
is accepted with status 200 and does mutate the store — the code never
checks `result` against `win`/`loss`. -/
theorem nonWinLoss_result_accepted :
    (("draw" : String) ≠ "win" ∧ ("draw" : String) ≠ "loss") ∧
    (postGame .noFail 0 ⟨"A", "draw", 5, "h"⟩ dbEmpty).1.status = 200 ∧
    (postGame .noFail 0 ⟨"A", "draw", 5, "h"⟩ dbEmpty).2.players ≠ [] := by
  decide

/-- C1, amended: `POST /api/game` accepts a submission exactly when all four
fields are present and non-empty/non-zero (JS truthiness); `result` is not
restricted to `win`/`loss`.  Every submission with a missing/empty/zero
field is rejected with status 400 and no mutation is performed on any
collection. -/
theorem validation_presence_only (f : LBFail) (now : Nat)
    (req : GameRequest) (s : DBState) :
    (¬ validReq req → postGame f now req s = (⟨400, .allFieldsRequired⟩, s)) ∧
    (validReq req → (postGame f now req s).1 = ⟨200, .gameRecorded⟩) := by
  refine ⟨postGame_invalid f now req s, fun hv => ?_⟩
  rcases hfind : s.players.find? (fun q => q.name = req.playerName) with _ | p
  · rw [postGame_valid_new f now req s hv hfind]
  · rw [postGame_valid_found f now req s p hv hfind]

theorem validation_presence_only_witness :
    postGame .noFail 0 ⟨"A", "win", 0, "h"⟩ dbEmpty =
      (⟨400, .allFieldsRequired⟩, dbEmpty) ∧
    (postGame .noFail 0 ⟨"Alice", "win", 100, "holdem"⟩ dbEmpty).1 =
      ⟨200, .gameRecorded⟩ :=
  ⟨(validation_presence_only .noFail 0 ⟨"A", "win", 0, "h"⟩ dbEmpty).1
      (by decide),
    (validation_presence_only .noFail 0
      ⟨"Alice", "win", 100, "holdem"⟩ dbEmpty).2 (by decide)⟩

/-- C2: after every sequence of submissions starting from the empty store,
every player record satisfies `wins + losses = gamesPlayed` and
`totalWinnings = totalWon - totalLost`. -/
theorem player_statistics_invariants
    (items : List (LBFail × Nat × GameRequest)) :
    ∀ p ∈ (runGames items dbEmpty).players,
      p.wins + p.losses = p.gamesPlayed ∧
        p.totalWinnings = p.totalWon - p.totalLost :=
  statsInv_runGames items dbEmpty (by intro p hp; cases hp)

theorem player_statistics_invariants_witness :
    (⟨"Alice", 100, 1, 1, 0, 100, 100, 0, 0, 0⟩ : Player).wins +
        (⟨"Alice", 100, 1, 1, 0, 100, 100, 0, 0, 0⟩ : Player).losses =
        (⟨"Alice", 100, 1, 1, 0, 100, 100, 0, 0, 0⟩ : Player).gamesPlayed ∧
      (⟨"Alice", 100, 1, 1, 0, 100, 100, 0, 0, 0⟩ : Player).totalWinnings =
        (⟨"Alice", 100, 1, 1, 0, 100, 100, 0, 0, 0⟩ : Player).totalWon -
          (⟨"Alice", 100, 1, 1, 0, 100, 100, 0, 0, 0⟩ : Player).totalLost :=
  player_statistics_invariants
    [(LBFail.noFail, 0, ⟨"Alice", "win", 100, "holdem"⟩)]
    ⟨"Alice", 100, 1, 1, 0, 100, 100, 0, 0, 0⟩ (by
      have h : (runGames
          [(LBFail.noFail, 0, ⟨"Alice", "win", 100, "holdem"⟩)]
          dbEmpty).players =
          [⟨"Alice", 100, 1, 1, 0, 100, 100, 0, 0, 0⟩] := by decide
      rw [h]
      exact List.mem_cons_self _ _)

/-- C3, counterexample: a win with a negative (truthy, hence accepted)
amount: after submitting `{playerName: "A", result: "win", amount: -1}` the
stored `biggestWin` is `0`, while the claim's "maximum amount over all
win-result submissions" is `-1`. -/
theorem biggestWin_ne_max_win_amounts :
    bw (runGames [(LBFail.noFail, 0, ⟨"A", "win", -1, "h"⟩)] dbEmpty) "A"
        = 0 ∧
    specBiggestWin "A" [(LBFail.noFail, 0, ⟨"A", "win", -1, "h"⟩)] = -1 ∧
    bw (runGames [(LBFail.noFail, 0, ⟨"A", "win", -1, "h"⟩)] dbEmpty) "A"
        ≠ specBiggestWin "A" [(LBFail.noFail, 0, ⟨"A", "win", -1, "h"⟩)] := by
  decide

/-- C3, amended: `biggestWin` is monotonically non-decreasing across
submissions, and after each sequence of submissions it equals the maximum of
`0` (its initial value) and all accepted win-result amounts for that player;
for positive amounts this coincides with the claimed maximum. -/
theorem biggestWin_monotone_clamped_max
    (items : List (LBFail × Nat × GameRequest)) (n : String) :
    bw (runGames items dbEmpty) n = (winAmounts n items).foldl max 0 ∧
    ∀ (f : LBFail) (now : Nat) (req : GameRequest) (s : DBState),
      bw s n ≤ bw (postGame f now req s).2 n := by
  constructor
  · exact bw_runGames items dbEmpty n
  · intro f now req s
    rw [bw_postGame]
    split
    · exact le_max_left _ _
    · exact le_refl _

/-- C4: the materializer output is sorted by descending `totalWinnings`,
its `rank` fields are exactly the dense 1-based positions `1..N`, it is a
permutation of the player set, and ties keep their load order (for each
winnings value, the players carrying it appear in their original order). -/
theorem leaderboard_ranks_dense_sorted (ps : List Player) (now : Nat) :
    (computeLeaderboard now ps).map LBEntry.rank =
      (List.range ps.length).map (· + 1) ∧
    ((computeLeaderboard now ps).map LBEntry.player).Perm ps ∧
    (computeLeaderboard now ps).Sorted
      (fun e1 e2 => e2.player.totalWinnings ≤ e1.player.totalWinnings) ∧
    ∀ v : ℤ, ((computeLeaderboard now ps).map LBEntry.player).filter
        (fun p => p.totalWinnings = v) =
      ps.filter (fun p => p.totalWinnings = v) := by
  refine ⟨?_, ?_, ?_, ?_⟩
  · rw [computeLeaderboard, map_rank_rankEntries,
      (sortPlayers_perm ps).length_eq]
  · rw [computeLeaderboard, map_player_rankEntries]
    exact sortPlayers_perm ps
  · have hs : ((computeLeaderboard now ps).map LBEntry.player).Pairwise
        winningsGE := by
      rw [computeLeaderboard, map_player_rankEntries]
      exact sortPlayers_sorted ps
    exact List.pairwise_map.mp hs
  · intro v
    rw [computeLeaderboard, map_player_rankEntries]
    exact sortPlayers_filter_winnings ps v

/-- C5: `winRate` is `wins / gamesPlayed * 100` when `gamesPlayed > 0` and
exactly `0` when `gamesPlayed = 0`; `avgWin` is `totalWon / wins` when
`wins > 0` and exactly `0` when `wins = 0`; both are total functions (no
error, no NaN in the exact-arithmetic model), and the materializer's entries
carry exactly these derived values. -/
theorem winRate_avgWin_derivation (p : Player) :
    (p.gamesPlayed = 0 → winRate p = 0) ∧
    (p.gamesPlayed > 0 →
      winRate p = (p.wins : ℚ) / (p.gamesPlayed : ℚ) * 100) ∧
    (p.wins = 0 → avgWin p = 0) ∧
    (p.wins > 0 → avgWin p = (p.totalWon : ℚ) / (p.wins : ℚ)) ∧
    ∀ (now : Nat) (ps : List Player), ∀ e ∈ computeLeaderboard now ps,
      e.winRate = winRate e.player ∧ e.avgWin = avgWin e.player := by
  refine ⟨fun h => by simp [winRate, h], fun h => by simp [winRate, h],
    fun h => by simp [avgWin, h], fun h => by simp [avgWin, h], ?_⟩
  intro now ps e he
  have h := mem_rankEntries now 0 (sortPlayers ps) e he
  exact ⟨h.2.1, h.2.2.1⟩

theorem winRate_avgWin_derivation_witness :
    winRate ⟨"Alice", 100, 2, 1, 1, 100, 100, 40, 0, 0⟩ = 50 ∧
    avgWin ⟨"Alice", 100, 2, 1, 1, 100, 100, 40, 0, 0⟩ = 100 ∧
    winRate (freshPlayer "Z" 0) = 0 ∧
    avgWin (freshPlayer "Z" 0) = 0 := by
  have hA := winRate_avgWin_derivation ⟨"Alice", 100, 2, 1, 1, 100, 100,
    40, 0, 0⟩
  have hZ := winRate_avgWin_derivation (freshPlayer "Z" 0)
  refine ⟨?_, ?_, hZ.1 rfl, hZ.2.2.1 rfl⟩
  · rw [hA.2.1 (by decide)]
    norm_num
  · rw [hA.2.2.2.1 (by decide)]
    norm_num

/-- C6: recomputing the leaderboard twice over an unchanged player set
yields entrywise identical `rank`, `winRate` and `avgWin` (only the
`updatedAt` stamp may differ). -/
theorem leaderboard_recompute_idempotent (s : DBState) (t1 t2 : Nat) :
    ((updateLeaderboard .noFail t2
        (updateLeaderboard .noFail t1 s)).leaderboard).map
        (fun e => (e.player, e.rank, e.winRate, e.avgWin)) =
      ((updateLeaderboard .noFail t1 s).leaderboard).map
        (fun e => (e.player, e.rank, e.winRate, e.avgWin)) := by
  rw [leaderboard_updateLeaderboard_noFail,
    leaderboard_updateLeaderboard_noFail, players_updateLeaderboard]
  show (rankEntries t2 0 (sortPlayers s.players)).map _ =
    (rankEntries t1 0 (sortPlayers s.players)).map _
  exact rankEntries_map_proj t2 t1 0 (sortPlayers s.players)

/-- C7: once a valid submission's player and session mutations are in
place, any failure inside the leaderboard materializer is caught there: the
request still responds 200/success and the player and session collections
are exactly those of a failure-free run. -/
theorem materializer_failure_swallowed (f : LBFail) (now : Nat)
    (req : GameRequest) (s : DBState) (h : validReq req) :
    (postGame f now req s).1 = ⟨200, .gameRecorded⟩ ∧
    (postGame f now req s).2.players =
      (postGame .noFail now req s).2.players ∧
    (postGame f now req s).2.sessions =
      (postGame .noFail now req s).2.sessions := by
  rcases hfind : s.players.find? (fun q => q.name = req.playerName) with _ | p
  · rw [postGame_valid_new f now req s h hfind,
      postGame_valid_new .noFail now req s h hfind]
    simp [players_updateLeaderboard, sessions_updateLeaderboard]
  · rw [postGame_valid_found f now req s p h hfind,
      postGame_valid_found .noFail now req s p h hfind]
    simp [players_updateLeaderboard, sessions_updateLeaderboard]

theorem materializer_failure_swallowed_witness :
    (postGame .atInsert 0 ⟨"Alice", "win", 100, "holdem"⟩ dbEmpty).1 =
      ⟨200, .gameRecorded⟩ ∧
    (postGame .atInsert 0 ⟨"Alice", "win", 100, "holdem"⟩ dbEmpty).2.players =
      (postGame .noFail 0 ⟨"Alice", "win", 100, "holdem"⟩ dbEmpty).2.players ∧
    (postGame .atInsert 0 ⟨"Alice", "win", 100, "holdem"⟩ dbEmpty).2.sessions =
      (postGame .noFail 0 ⟨"Alice", "win", 100, "holdem"⟩ dbEmpty).2.sessions :=
  materializer_failure_swallowed .atInsert 0
    ⟨"Alice", "win", 100, "holdem"⟩ dbEmpty (by decide)

/-- C8: one materializer run replaces the persisted leaderboard with
exactly the newly computed ranked sequence (clear, then write), and on an
empty player set it terminates without error leaving the leaderboard
empty. -/
theorem leaderboard_replaced_wholesale (now : Nat) (s : DBState) :
    updateLeaderboardBody now s =
      Except.ok { s with leaderboard := computeLeaderboard now s.players } ∧
    (updateLeaderboard .noFail now s).leaderboard =
      computeLeaderboard now s.players ∧
    (s.players = [] →
      updateLeaderboardBody now s = Except.ok { s with leaderboard := [] }) := by
  refine ⟨updateLeaderboardBody_eq now s,
    leaderboard_updateLeaderboard_noFail now s, fun h => ?_⟩
  rw [updateLeaderboardBody_eq, h]
  rfl

theorem leaderboard_replaced_wholesale_witness :
    updateLeaderboardBody 0 dbEmpty =
      Except.ok { dbEmpty with leaderboard := [] } :=
  (leaderboard_replaced_wholesale 0 dbEmpty).2.2 rfl

/-- C9: `GET /api/sessions` returns the session log ordered by `createdAt`
descending, capped at 50 entries, each drawn from the stored log. -/
theorem sessions_newest_first_capped (s : DBState) :
    getSessions s = ⟨200, .sessionsList (recentSessions s)⟩ ∧
    (recentSessions s).length ≤ 50 ∧
    (recentSessions s).Sorted createdGE ∧
    ∀ x ∈ recentSessions s, x ∈ s.sessions := by
  refine ⟨rfl, List.length_take_le _ _, ?_, ?_⟩
  · exact List.Pairwise.sublist (List.take_sublist _ _)
      (List.sorted_insertionSort createdGE s.sessions)
  · intro x hx
    exact ((List.perm_insertionSort createdGE s.sessions).mem_iff).mp
      (List.mem_of_mem_take hx)

theorem sessions_newest_first_capped_witness :
    (recentSessions ⟨[], [⟨"A", "A", "win", 1, "h", 1, 1⟩,
        ⟨"B", "B", "loss", -2, "h", 2, 2⟩], []⟩).length ≤ 50 ∧
    ((⟨"B", "B", "loss", -2, "h", 2, 2⟩ : Session) ∈
      (⟨[], [⟨"A", "A", "win", 1, "h", 1, 1⟩,
        ⟨"B", "B", "loss", -2, "h", 2, 2⟩], []⟩ : DBState).sessions) :=
  ⟨(sessions_newest_first_capped _).2.1,
    (sessions_newest_first_capped ⟨[], [⟨"A", "A", "win", 1, "h", 1, 1⟩,
        ⟨"B", "B", "loss", -2, "h", 2, 2⟩], []⟩).2.2.2
      ⟨"B", "B", "loss", -2, "h", 2, 2⟩ (by decide)⟩

/-- C10: a valid submission whose `result` is any non-empty string other
than `"win"` is accepted and processed as a loss: the response is
200/success, the session is appended carrying the original `result` string
and the negated amount, and the player record gets `losses + 1`,
`totalLost + amount`, `totalWinnings - amount`, `gamesPlayed + 1`. -/
theorem nonWin_result_processed_as_loss (f : LBFail) (now : Nat)
    (req : GameRequest) (s : DBState) (hv : validReq req)
    (hw : req.result ≠ "win") :
    (postGame f now req s).1 = ⟨200, .gameRecorded⟩ ∧
    (postGame f now req s).2.sessions = s.sessions ++
      [⟨req.playerName, req.playerName, req.result, -req.amount,
        req.gameType, now, now⟩] ∧
    (postGame f now req s).2.players.find?
        (fun p => p.name = req.playerName) =
      some (let old := (s.players.find?
              (fun p => p.name = req.playerName)).getD
              (freshPlayer req.playerName now)
            { old with
              totalWinnings := old.totalWinnings - req.amount
              gamesPlayed := old.gamesPlayed + 1
              losses := old.losses + 1
              totalLost := old.totalLost + req.amount
              updatedAt := now }) := by
  have hsess : mkSession req now = ⟨req.playerName, req.playerName,
      req.result, -req.amount, req.gameType, now, now⟩ := by
    simp [mkSession, hw]
  rcases hfind : s.players.find? (fun q => q.name = req.playerName) with _ | p
  · rw [postGame_valid_new f now req s hv hfind]
    refine ⟨rfl, by simp [sessions_updateLeaderboard, hsess], ?_⟩
    simp only [players_updateLeaderboard, List.find?_append, hfind,
      Option.none_or, hfind, Option.getD_none]
    have hq : decide ((foldGame req now
        (freshPlayer req.playerName now)).name = req.playerName) = true := by
      simp [foldGame_name, freshPlayer]
    simp only [List.find?_cons, hq, List.find?_nil]
    simp [foldGame, freshPlayer, hw, sub_eq_add_neg]
  · rw [postGame_valid_found f now req s p hv hfind]
    have hfold : (foldGame req now p).name = req.playerName := by
      rw [foldGame_name]
      have := List.find?_some hfind
      simpa using this
    refine ⟨rfl, by simp [sessions_updateLeaderboard, hsess], ?_⟩
    rw [players_updateLeaderboard,
      find?_replaceFirst_self _ _ _ hfold (by simp [hfind]), hfind]
    simp [foldGame, hw, sub_eq_add_neg]

theorem nonWin_result_processed_as_loss_witness :
    (postGame .noFail 0 ⟨"A", "draw", 5, "h"⟩ dbEmpty).1 =
      ⟨200, .gameRecorded⟩ ∧
    (postGame .noFail 0 ⟨"A", "draw", 5, "h"⟩ dbEmpty).2.sessions =
      [⟨"A", "A", "draw", -5, "h", 0, 0⟩] := by
  have h := nonWin_result_processed_as_loss .noFail 0 ⟨"A", "draw", 5, "h"⟩
    dbEmpty (by decide) (by decide)
  exact ⟨h.1, h.2.1⟩

end Poker
